import Mathlib

/-!
Shallow embedding of the batch ingestion-and-summarization pipeline of the
Reddit-AI-Dashboard repository (src/scraper/scrape.py, src/ai/summarize.py).
Strings are modelled as `List Char`; Python regular-expression steps are
modelled by equivalent character-level scanning functions.
-/

/-- Python `\s` / `str.split()` whitespace, restricted to its ASCII members
(the only whitespace characters the pipeline's own string constants use). -/
def isSpace (c : Char) : Bool :=
  c = ' ' || c = '\t' || c = '\n' || c = '\r' || c = '\x0b' || c = '\x0c'

/-- Python `str.strip()`: drop leading and trailing whitespace. -/
def pyStrip (s : List Char) : List Char :=
  ((s.dropWhile isSpace).reverse.dropWhile isSpace).reverse

/-- The canonical failure sentinel `"NoSummaryGenerated"` of the pipeline. -/
def sentinel : List Char := "NoSummaryGenerated".data

/-- The suffix strictly after the first occurrence of `close`, if any.
Models the non-greedy regex jump `.*?close`. -/
def dropToClose (close : Char) : List Char → Option (List Char)
  | [] => none
  | c :: cs => if c = close then some cs else dropToClose close cs

/-- Fuelled scanner for `re.sub(r'<.*?>|\[.*?\]|<｜.*?｜>', '', s, flags=DOTALL)`
(scrape.py step 1 of `clean_summary`).  At `<` the first alternative consumes up
to the nearest following `>`; at `[` up to the nearest `]`; the third
alternative `<｜.*?｜>` can never fire (whenever it could, `<.*?>` already
matched first).  A `<` or `[` with no closing character is kept verbatim and
scanning resumes at the next character, exactly as `re.sub` does. -/
def removeTagsF : Nat → List Char → List Char
  | 0, s => s
  | _ + 1, [] => []
  | n + 1, c :: cs =>
    if c = '<' then
      match dropToClose '>' cs with
      | some rest => removeTagsF n rest
      | none => c :: removeTagsF n cs
    else if c = '[' then
      match dropToClose ']' cs with
      | some rest => removeTagsF n rest
      | none => c :: removeTagsF n cs
    else c :: removeTagsF n cs

def removeTags (s : List Char) : List Char := removeTagsF s.length s

/-- ASCII case-insensitive character comparison (`re.IGNORECASE` on the
pipeline's all-ASCII patterns). -/
def lowEq (a b : Char) : Bool := a.toLower = b.toLower

/-- If `pat` is a case-insensitive prefix of `s`, return the rest of `s`. -/
def matchCIHead : List Char → List Char → Option (List Char)
  | [], s => some s
  | _ :: _, [] => none
  | p :: ps, c :: cs => if lowEq p c then matchCIHead ps cs else none

/-- The suffix of `s` after the first (leftmost) case-insensitive occurrence of
`pat`, if any.  Models `re.split(pat, s, maxsplit=1, flags=IGNORECASE)[1]`
for a literal pattern, and `re.search` when only presence is asked. -/
def splitAfterCI (pat : List Char) : List Char → Option (List Char)
  | [] => matchCIHead pat []
  | c :: cs =>
    match matchCIHead pat (c :: cs) with
    | some r => some r
    | none => splitAfterCI pat cs

/-- The five conversational preamble patterns of `clean_summary`, in the
source's priority order. -/
def pre1 : List Char := "Here is the summary you requested:".data
def pre2 : List Char := "Here is the summary paragraph:".data
def pre3 : List Char := "Here is the summary:".data
def pre4 : List Char := "Summary:".data
def pre5 : List Char := "The following is a summary:".data

/-- Step 2 of `clean_summary`: try the preamble patterns in order; on the first
one that occurs, keep only the text after its first occurrence and stop. -/
def applyPreamble (s : List Char) : List Char :=
  match splitAfterCI pre1 s with
  | some r => r
  | none =>
    match splitAfterCI pre2 s with
    | some r => r
    | none =>
      match splitAfterCI pre3 s with
      | some r => r
      | none =>
        match splitAfterCI pre4 s with
        | some r => r
        | none =>
          match splitAfterCI pre5 s with
          | some r => r
          | none => s

def lblComments : List Char := "Comments".data
def lblPostTitle : List Char := "Post Title".data

/-- The `:?\s*` tail of the label pattern. -/
def afterColonWs (s : List Char) : List Char :=
  match s with
  | ':' :: rest => rest.dropWhile isSpace
  | _ => s.dropWhile isSpace

/-- Match of `^\s*(Comments|Post Title):?\s*` at position 0 (no MULTILINE flag:
`^` anchors only at the start), returning the rest of the string. -/
def labelMatch0 (s : List Char) : Option (List Char) :=
  let r := s.dropWhile isSpace
  match matchCIHead lblComments r with
  | some rest => some (afterColonWs rest)
  | none =>
    match matchCIHead lblPostTitle r with
    | some rest => some (afterColonWs rest)
    | none => none

/-- Step 3 of `clean_summary`:
`re.sub(r'^\s*(Comments|Post Title):?\s*', '', text, flags=IGNORECASE).strip()`. -/
def stripLabelStrip (s : List Char) : List Char :=
  match labelMatch0 s with
  | some rest => pyStrip rest
  | none => pyStrip s

/-- Match of `^\s*[\*\-]\s*` at a line-start position: skip whitespace, require
a bullet, skip trailing whitespace.  Returns whether scanning resumes at a
line start (last consumed character was a newline) and the rest. -/
def bulletMatch (s : List Char) : Option (Bool × List Char) :=
  match s.dropWhile isSpace with
  | c :: cs =>
    if c = '*' || c = '-' then
      some (((cs.takeWhile isSpace).getLast? == some '\n'), cs.dropWhile isSpace)
    else none
  | [] => none

/-- After at least one digit was consumed: keep consuming digits; then a literal
`.` must follow, then trailing whitespace is consumed (tail of `\d+\.\s*`). -/
def digitTail : List Char → Option (Bool × List Char)
  | [] => none
  | c :: cs =>
    if c.isDigit then digitTail cs
    else if c = '.' then
      some (((cs.takeWhile isSpace).getLast? == some '\n'), cs.dropWhile isSpace)
    else none

/-- Match of `\d+\.\s*` at the current position. -/
def digitMatch : List Char → Option (Bool × List Char)
  | [] => none
  | c :: cs => if c.isDigit then digitTail cs else none

/-- Fuelled scanner for
`re.sub(r'^\s*[\*\-]\s*|\d+\.\s*', '', text, flags=MULTILINE)`
(step 4 of `clean_summary`).  `ls` records whether the current position is a
line start (position 0 or just after a newline), where alternative 1 may fire;
alternative 2 may fire anywhere. -/
def stripBulletsF : Nat → Bool → List Char → List Char
  | 0, _, s => s
  | _ + 1, _, [] => []
  | n + 1, ls, c :: cs =>
    match (if ls then bulletMatch (c :: cs) else none) with
    | some (ls2, rest) => stripBulletsF n ls2 rest
    | none =>
      match digitMatch (c :: cs) with
      | some (ls2, rest) => stripBulletsF n ls2 rest
      | none => c :: stripBulletsF n (c = '\n') cs

def stripBullets (s : List Char) : List Char := stripBulletsF s.length true s

/-- `re.sub(r'\s+', ' ', s)`: collapse every maximal whitespace run to one
space.  `inRun` records whether the previous character was whitespace. -/
def collapseWSF : Bool → List Char → List Char
  | _, [] => []
  | inRun, c :: cs =>
    if isSpace c then
      if inRun then collapseWSF true cs else ' ' :: collapseWSF true cs
    else c :: collapseWSF false cs

def collapseWS (s : List Char) : List Char := collapseWSF false s

/-- `len(s.split())`: the number of maximal non-whitespace blocks. -/
def countTokensF : Bool → List Char → Nat
  | _, [] => 0
  | inTok, c :: cs =>
    if isSpace c then countTokensF false cs
    else if inTok then countTokensF true cs
    else countTokensF true cs + 1

def countTokens (s : List Char) : Nat := countTokensF false s

/-- `clean_summary` (scrape.py lines 42-77): the text normalizer. -/
def clean_summary (s : List Char) : List Char :=
  if s = [] || s = sentinel then sentinel
  else
    let t1 := removeTags s
    let t2 := applyPreamble t1
    let t3 := stripLabelStrip t2
    let t4 := stripBullets t3
    let t5 := pyStrip (collapseWS t4)
    if countTokens t5 < 5 then sentinel else t5

example : clean_summary "Here is the summary: The debate centered on X and Y.".data
    = "The debate centered on X and Y.".data := by decide

example : clean_summary "Post Title: Comments are nice today friend".data
    = "Comments are nice today friend".data := by decide

example : clean_summary "Comments are nice today friend".data = sentinel := by decide

/-! ## Concurrent fetcher (scrape.py `fetch_post_data`, lines 79-104)

A fetched comment record: `hasBody` models Python's `hasattr(comment, 'body')`
guard.  The praw post handle's other attributes and the returned payload's
`post_obj` / `top_comments` fields play no role in any claim and are elided. -/

structure FetchedComment where
  hasBody : Bool
  body : List Char
deriving DecidableEq

/-- One `"Comment: {body}\n"` line, emitted only when the comment has a body. -/
def commentLine (c : FetchedComment) : List Char :=
  if c.hasBody then ("Comment: ".data ++ c.body ++ ['\n']) else []

/-- The combined discussion text built by `fetch_post_data`. -/
def buildDiscussion (title selftext : List Char) (comments : List FetchedComment) :
    List Char :=
  "Post Title: ".data ++ title ++ "\nPost Body: ".data ++ selftext
    ++ "\n\n--- Comments ---\n".data ++ (comments.map commentLine).flatten

structure Payload where
  id : List Char
  text : List Char
deriving DecidableEq

/-- `fetch_post_data`: take the first `limit_per_post` comments, build the
discussion text, reject it below 200 characters, truncate above 20000. -/
def fetch_post_data (pid title selftext : List Char)
    (comments : List FetchedComment) (limitPerPost : Nat) : Option Payload :=
  let top := comments.take limitPerPost
  let t := buildDiscussion title selftext top
  if t.length < 200 then none
  else some ⟨pid, if t.length > 20000 then t.take 20000 else t⟩

/-! ## Batch summarization client (summarize.py `summarize_batch`, lines 233-340)

External collaborators are modelled as arguments: `apiKey` is the configured
credential; `callResp` is the outcome of the single `model.generate_content`
call (`.error` covers both model-initialization and provider-call exceptions,
each of which the source catches and turns into `None`); `parseJson` is the
`json.loads` library call, returning the parsed id-to-summary object or `none`
on a `JSONDecodeError`.  Prompt construction and the fixed `time.sleep(5)`
delay have no observable effect on the returned value and are elided. -/

/-- A parsed summary map: association list of (item id, raw summary). -/
abbrev SMap := List (List Char × List Char)

def placeholderKey : List Char := "YOUR_GEMINI_API_KEY_HERE".data

/-- `pat` occurs as a contiguous subsequence starting at the head. -/
def seqAt : List Char → List Char → Bool
  | [], _ => true
  | _ :: _, [] => false
  | p :: ps, c :: cs => p = c && seqAt ps cs

/-- Python's `pat in s` substring test. -/
def containsSeq (pat : List Char) : List Char → Bool
  | [] => seqAt pat []
  | c :: cs => seqAt pat (c :: cs) || containsSeq pat cs

/-- `if not api_key or "YOUR_GEMINI_API_KEY_HERE" in api_key` — the missing /
placeholder credential check. -/
def keyBad : Option (List Char) → Bool
  | none => true
  | some k => decide (k = []) || containsSeq placeholderKey k

/-- `s.find(c)`: index of the first occurrence, if any. -/
def firstIdx (c : Char) : List Char → Option Nat
  | [] => none
  | d :: ds => if d = c then some 0 else (firstIdx c ds).map (· + 1)

/-- `s.rfind(c)`: index of the last occurrence, if any. -/
def lastIdx (c : Char) (s : List Char) : Option Nat :=
  (firstIdx c s.reverse).map (fun k => s.length - 1 - k)

/-- `raw[raw.find('\x7b') : raw.rfind('\x7d') + 1]`, with `none` when either
brace is absent (the source's `json_start == -1 or json_end == 0` test).
When the last `\x7d` precedes the first `\x7b` the Python slice is the empty
string, which `json.loads` then rejects; `take` of a zero `Nat` difference
reproduces that. -/
def extractJsonSpan (s : List Char) : Option (List Char) :=
  match firstIdx '\x7b' s, lastIdx '\x7d' s with
  | some i, some j => some ((s.drop i).take (j + 1 - i))
  | _, _ => none

/-- `summarize_batch`: the uniform `None` failure marker on a missing or
placeholder credential, on a provider error, on a missing brace span, or on a
JSON parse error; otherwise the object parsed from the brace-delimited span of
the stripped response text. -/
def summarize_batch (apiKey : Option (List Char)) (callResp : Except Unit (List Char))
    (parseJson : List Char → Option SMap) : Option SMap :=
  if keyBad apiKey then none
  else
    match callResp with
    | .error _ => none
    | .ok t =>
      match extractJsonSpan (pyStrip t) with
      | none => none
      | some js => parseJson js

/-! ## Store and batch orchestrator (scrape.py `main`, lines 106-290)

The `posts` table is modelled as a list of rows; the columns other than the
primary key `id` and `summary` (subreddit, title, body, author, score,
created_utc, url, and the downstream-job columns cluster_id / sentiment) are
never read by the orchestrator and are elided.  The `comments` table
(`INSERT OR IGNORE`) is touched only for items that were themselves persisted
and no claim constrains it, so it is elided as well. -/

structure PostRow where
  id : List Char
  summary : List Char
deriving DecidableEq

structure PostData where
  id : List Char
  text : List Char
deriving DecidableEq

/-- The plain `INSERT INTO posts ...` statement: SQLite raises an
`IntegrityError` (modelled as `.error ()`) when a row with the same primary
key already exists, and appends the new row otherwise. -/
def insertPost (tbl : List PostRow) (r : PostRow) : Except Unit (List PostRow) :=
  if tbl.any (fun q => q.id == r.id) then .error () else .ok (tbl ++ [r])

/-- `summaries_map.get(post_obj.id, "NoSummaryGenerated")`: dictionary lookup
with the sentinel as default. -/
def mapGet (m : SMap) (k : List Char) : List Char :=
  match m with
  | [] => sentinel
  | (k2, v) :: rest => if k2 = k then v else mapGet rest k

/-- The per-item persistence loop body run for each batch item once a truthy
summary map is in hand: clean the looked-up raw summary and insert the row
unless the cleaned summary is the sentinel. -/
def persistBatchItems (store : List PostRow) (batch : List PostData) (m : SMap) :
    Except Unit (List PostRow) :=
  match batch with
  | [] => .ok store
  | p :: rest =>
    let s := clean_summary (mapGet m p.id)
    if s = sentinel then persistBatchItems store rest m
    else
      match insertPost store ⟨p.id, s⟩ with
      | .error e => .error e
      | .ok st2 => persistBatchItems st2 rest m

/-- Handling of one batch's `summarize_batch` result: `none` (the failure
marker) and the empty map are both falsy under Python's `if summaries_map:`
test, so neither writes anything; a non-empty map drives the persistence
loop. -/
def processBatch (store : List PostRow) (batch : List PostData) (res : Option SMap) :
    Except Unit (List PostRow) :=
  match res with
  | none => .ok store
  | some m => if m = [] then .ok store else persistBatchItems store batch m

/-- The batching loop of `main` over one collection: each element pairs a
formed batch with the result its `summarize_batch` call produced.  An
uncaught insert error aborts the run, exactly as in the source (there is no
`try` around the loop). -/
def runBatches (store : List PostRow) :
    List (List PostData × Option SMap) → Except Unit (List PostRow)
  | [] => .ok store
  | (b, r) :: rest =>
    match processBatch store b r with
    | .error e => .error e
    | .ok st2 => runBatches st2 rest

/-- The outer loop of `main` over the configured collections (subreddits),
each abstracted to its list of (batch, summarizer result) pairs. -/
def runCollections (store : List PostRow) :
    List (List (List PostData × Option SMap)) → Except Unit (List PostRow)
  | [] => .ok store
  | c :: cs =>
    match runBatches store c with
    | .error e => .error e
    | .ok st2 => runCollections st2 cs

/-- Batch formation of `main`: append items one at a time, flush as soon as
the accumulator reaches `batch_size`, and flush any non-empty remainder. -/
def toBatches (bs : Nat) (acc : List PostData) : List PostData → List (List PostData)
  | [] => if acc = [] then [] else [acc]
  | p :: ps =>
    let acc2 := acc ++ [p]
    if bs ≤ acc2.length then acc2 :: toBatches bs [] ps else toBatches bs acc2 ps

/-! ## Deduplicating discovery (scrape.py `main`, lines 150-152)

`existing_post_ids` is the id set obtained by the single `SELECT id FROM posts`
read per collection; the candidate listing is filtered in place.  A praw post
record's attributes other than `id` are irrelevant here and elided to a
representative `title`. -/

structure RedditPost where
  id : List Char
  title : List Char
deriving DecidableEq

/-- `[post for post in posts_to_scrape if post.id not in existing_post_ids]`. -/
def filterNewPosts (existingIds : List (List Char)) (candidates : List RedditPost) :
    List RedditPost :=
  candidates.filter (fun p => !(existingIds.contains p.id))

example :
    processBatch [] [⟨"a".data, "t".data⟩]
      (some [("a".data, "alpha beta gamma delta epsilon".data)])
    = .ok [⟨"a".data, "alpha beta gamma delta epsilon".data⟩] := by rfl

example :
    insertPost [⟨"a".data, "x".data⟩] ⟨"a".data, "y".data⟩ = .error () := by rfl

example : extractJsonSpan "ok \x7b\"a\": 1\x7d!".data = some "\x7b\"a\": 1\x7d".data := by
  decide

/-! ## Shared concrete values and helper lemmas -/

/-- A well-formed five-token summary that `clean_summary` leaves unchanged. -/
def exGoodSum : List Char := "alpha beta gamma delta epsilon".data

def exPostA : PostData := ⟨"a1".data, "text a".data⟩
def exPostB : PostData := ⟨"b2".data, "text b".data⟩

/-- A model of `json.loads` that recognises exactly the empty JSON object. -/
def parseEmptyObj : List Char → Option SMap :=
  fun s => if s = "\x7b\x7d".data then some [] else none

/-- A model of `json.loads` that recognises exactly one singleton object. -/
def parseAB : List Char → Option SMap :=
  fun s => if s = "\x7b\"a\":\"b\"\x7d".data then some [("a".data, "b".data)] else none

theorem clean_sentinel : clean_summary sentinel = sentinel := by rfl

/-- The rows a batch's (successful) summary map adds to the store: one row per
batch item whose cleaned summary is not the sentinel. -/
def batchInserted (batch : List PostData) (m : SMap) : List PostRow :=
  batch.filterMap (fun p =>
    if clean_summary (mapGet m p.id) = sentinel then none
    else some ⟨p.id, clean_summary (mapGet m p.id)⟩)

theorem batchInserted_nil_map (batch : List PostData) : batchInserted batch [] = [] := by
  rw [batchInserted, List.filterMap_eq_nil_iff]
  intro p _
  simp [mapGet, clean_sentinel]

theorem persistBatchItems_ok (batch : List PostData) (m : SMap) :
    ∀ store : List PostRow,
    (∀ p ∈ batch, ∀ q ∈ store, q.id ≠ p.id) →
    (batch.map (fun p => p.id)).Nodup →
    persistBatchItems store batch m = .ok (store ++ batchInserted batch m) := by
  induction batch with
  | nil => intro store _ _; simp [persistBatchItems, batchInserted]
  | cons p rest ih =>
    intro store hfresh hnodup
    simp only [List.map_cons, List.nodup_cons, List.mem_map] at hnodup
    by_cases hs : clean_summary (mapGet m p.id) = sentinel
    · rw [persistBatchItems, if_pos hs]
      rw [ih store (fun p2 hp2 => hfresh p2 (List.mem_cons_of_mem _ hp2)) hnodup.2]
      simp [batchInserted, hs]
    · rw [persistBatchItems, if_neg hs]
      have hins : insertPost store ⟨p.id, clean_summary (mapGet m p.id)⟩
          = .ok (store ++ [⟨p.id, clean_summary (mapGet m p.id)⟩]) := by
        rw [insertPost, if_neg]
        simp only [List.any_eq_true, beq_iff_eq, not_exists, not_and]
        intro q hq
        exact hfresh p (List.mem_cons_self _ _) q hq
      rw [hins]
      show persistBatchItems (store ++ [⟨p.id, clean_summary (mapGet m p.id)⟩]) rest m
          = .ok (store ++ batchInserted (p :: rest) m)
      have hfresh2 : ∀ p2 ∈ rest,
          ∀ q ∈ store ++ [(⟨p.id, clean_summary (mapGet m p.id)⟩ : PostRow)],
          q.id ≠ p2.id := by
        intro p2 hp2 q hq
        rcases List.mem_append.mp hq with hq1 | hq2
        · exact hfresh p2 (List.mem_cons_of_mem _ hp2) q hq1
        · rcases List.mem_singleton.mp hq2 with rfl
          intro hid
          exact hnodup.1 ⟨p2, hp2, hid.symm⟩
      exact (ih _ hfresh2 hnodup.2).trans (by simp [batchInserted, hs])

/-! ## Claims -/

/-- Claim C1 (code bug): the spec requires persisting an already-present item
id to be a silent no-op that raises no error and keeps exactly one row, but
`main` uses a plain `INSERT INTO posts` with no duplicate handling, so SQLite
raises an `IntegrityError` on the duplicate primary key and the run crashes.
Evaluated here at a concrete failing input: a store already holding id `p1`
and a batch that persists `p1` again. -/
theorem claim_C1_bug :
    insertPost [⟨"p1".data, exGoodSum⟩] ⟨"p1".data, "zeta eta theta iota kappa".data⟩
      = .error ()
    ∧ processBatch [⟨"p1".data, exGoodSum⟩] [⟨"p1".data, "some text".data⟩]
        (some [("p1".data, "zeta eta theta iota kappa".data)]) = .error () := by
  constructor <;> rfl

/-- Claim C2: when a batch's summarization call fails, `summarize_batch` hands
the orchestrator the uniform failure marker; the batch then writes zero items
to the store, the orchestrator does not crash, and processing continues with
the next batch. -/
theorem claim_C2 (store : List PostRow) (batch : List PostData)
    (rest : List (List PostData × Option SMap)) :
    processBatch store batch none = .ok store
    ∧ runBatches store ((batch, none) :: rest) = runBatches store rest := by
  constructor <;> rfl

/-- Claim C3: after a successful summarization call returning the map `m`,
each batch item's id is looked up in `m` with the sentinel as default; the
final store is the old store extended with exactly the rows of the items whose
cleaned summary differs from the sentinel; sentinel items are absent entirely
and non-sentinel items are present with their cleaned summary.  The freshness
and distinctness hypotheses say that the batch's ids are new, which is what
discovery guarantees in a run. -/
theorem claim_C3 (store : List PostRow) (batch : List PostData) (m : SMap)
    (hfresh : ∀ p ∈ batch, ∀ q ∈ store, q.id ≠ p.id)
    (hnodup : (batch.map (fun p => p.id)).Nodup) :
    processBatch store batch (some m) = .ok (store ++ batchInserted batch m)
    ∧ (∀ p ∈ batch, clean_summary (mapGet m p.id) = sentinel →
        ∀ q ∈ store ++ batchInserted batch m, q.id ≠ p.id)
    ∧ (∀ p ∈ batch, clean_summary (mapGet m p.id) ≠ sentinel →
        (⟨p.id, clean_summary (mapGet m p.id)⟩ : PostRow) ∈ store ++ batchInserted batch m) := by
  refine ⟨?_, ?_, ?_⟩
  · by_cases hm : m = []
    · subst hm
      rw [processBatch, if_pos rfl, batchInserted_nil_map]
      simp
    · rw [processBatch, if_neg hm]
      exact persistBatchItems_ok batch m store hfresh hnodup
  · intro p hp hsent q hq
    rcases List.mem_append.mp hq with hq1 | hq2
    · exact hfresh p hp q hq1
    · rcases List.mem_filterMap.mp hq2 with ⟨p2, hp2, hmk⟩
      by_cases hs2 : clean_summary (mapGet m p2.id) = sentinel
      · rw [if_pos hs2] at hmk
        exact absurd hmk (by simp)
      · rw [if_neg hs2] at hmk
        rcases Option.some_inj.mp hmk with rfl
        simp only [ne_eq]
        intro hid
        have : p2 = p := List.inj_on_of_nodup_map hnodup hp2 hp hid
        subst this
        exact hs2 hsent
  · intro p hp hns
    refine List.mem_append.mpr (Or.inr ?_)
    refine List.mem_filterMap.mpr ⟨p, hp, ?_⟩
    rw [if_neg hns]

/-- Witness for C3, instantiating the first batch of the spec's Scenario A:
batch (A, B) with the summarizer returning a valid summary for A and the
sentinel string for B; A is persisted with its cleaned summary, B is dropped. -/
theorem claim_C3_witness :
    processBatch [] [⟨"A".data, "tA".data⟩, ⟨"B".data, "tB".data⟩]
      (some [("A".data, exGoodSum), ("B".data, sentinel)])
      = .ok ([] ++ batchInserted [⟨"A".data, "tA".data⟩, ⟨"B".data, "tB".data⟩]
          [("A".data, exGoodSum), ("B".data, sentinel)]) :=
  (claim_C3 [] [⟨"A".data, "tA".data⟩, ⟨"B".data, "tB".data⟩]
    [("A".data, exGoodSum), ("B".data, sentinel)] (by decide) (by decide)).1

/-- Claim C5: `summarize_batch` returns the uniform failure marker exactly when
the credential is missing or a placeholder, the provider call errors, the
stripped response holds no brace-delimited span, or the span does not parse;
and a successful result is exactly the object parsed from the span between the
first opening and last closing brace. -/
theorem claim_C5 (apiKey : Option (List Char)) (callResp : Except Unit (List Char))
    (parseJson : List Char → Option SMap) :
    (summarize_batch apiKey callResp parseJson = none ↔
      keyBad apiKey = true
      ∨ (∃ e, callResp = .error e)
      ∨ (∃ t, callResp = .ok t ∧ extractJsonSpan (pyStrip t) = none)
      ∨ (∃ t js, callResp = .ok t ∧ extractJsonSpan (pyStrip t) = some js
          ∧ parseJson js = none))
    ∧ (∀ m, summarize_batch apiKey callResp parseJson = some m ↔
        keyBad apiKey = false
        ∧ ∃ t js, callResp = .ok t ∧ extractJsonSpan (pyStrip t) = some js
            ∧ parseJson js = some m) := by
  cases hk : keyBad apiKey with
  | true =>
    exact ⟨by simp [summarize_batch, hk], fun m => by simp [summarize_batch, hk]⟩
  | false =>
    cases callResp with
    | error e =>
      exact ⟨by simp [summarize_batch, hk], fun m => by simp [summarize_batch, hk]⟩
    | ok t =>
      cases hsp : extractJsonSpan (pyStrip t) with
      | none =>
        exact ⟨by simp [summarize_batch, hk, hsp],
          fun m => by simp [summarize_batch, hk, hsp]⟩
      | some js =>
        cases hpj : parseJson js with
        | none =>
          exact ⟨by simp [summarize_batch, hk, hsp, hpj],
            fun m => by simp [summarize_batch, hk, hsp, hpj]⟩
        | some m0 =>
          refine ⟨by simp [summarize_batch, hk, hsp, hpj], fun m => ?_⟩
          simp only [summarize_batch, hk, Bool.false_eq_true, if_false, hsp, hpj,
            Option.some_inj]
          constructor
          · rintro rfl
            exact ⟨by simp, t, js, rfl, hsp, hpj⟩
          · rintro ⟨-, t2, js2, ht2, hsp2, hpj2⟩
            rcases Except.ok.inj ht2 with rfl
            rw [hsp] at hsp2
            rcases Option.some_inj.mp hsp2 with rfl
            rw [hpj] at hpj2
            exact Option.some_inj.mp hpj2

/-- Witness for C5: a concrete successful call, with conversational padding
around the JSON object, returns the parsed singleton map. -/
theorem claim_C5_witness :
    summarize_batch (some "key9".data) (.ok "pad \x7b\"a\":\"b\"\x7d pad".data) parseAB
      = some [("a".data, "b".data)] :=
  ((claim_C5 (some "key9".data) (.ok "pad \x7b\"a\":\"b\"\x7d pad".data) parseAB).2
    [("a".data, "b".data)]).mpr
    ⟨by decide, "pad \x7b\"a\":\"b\"\x7d pad".data, "\x7b\"a\":\"b\"\x7d".data, rfl,
      by decide, by rfl⟩

/-- Counterexample to claim C6 as stated: a connectivity failure for the first
batch of a collection does NOT abort the collection's remaining summarization
work — the very next batch of the same collection is still summarized and its
item persisted (`b2` ends up in the store). -/
theorem claim_C6_cex :
    runCollections []
      [[([exPostA], none), ([exPostB], some [("b2".data, exGoodSum)])]]
      = .ok [⟨"b2".data, exGoodSum⟩] := by rfl

/-- Claim C6 as amended: a connectivity failure of the LLM collaborator during
summarization skips only the failing batch (none of its items are persisted);
the run does not crash, the same collection's remaining batches are still
attempted, and other collections are still attempted. -/
theorem claim_C6_amended (store : List PostRow) (b : List PostData)
    (rest : List (List PostData × Option SMap))
    (cs : List (List (List PostData × Option SMap))) :
    runCollections store (((b, none) :: rest) :: cs)
      = runCollections store (rest :: cs) := by rfl

/-- Claim C7: discovery returns exactly the subsequence of the candidate
listing whose ids are absent from the (once-read) set of existing ids, in the
source's listing order; when every candidate id is present, it is empty. -/
theorem claim_C7 (existingIds : List (List Char)) (candidates : List RedditPost) :
    (filterNewPosts existingIds candidates).Sublist candidates
    ∧ (∀ p, p ∈ filterNewPosts existingIds candidates ↔
        p ∈ candidates ∧ p.id ∉ existingIds)
    ∧ ((∀ p ∈ candidates, p.id ∈ existingIds) →
        filterNewPosts existingIds candidates = []) := by
  have hmem : ∀ p, p ∈ filterNewPosts existingIds candidates ↔
      p ∈ candidates ∧ p.id ∉ existingIds := by
    intro p
    simp [filterNewPosts, List.mem_filter]
  refine ⟨List.filter_sublist _, hmem, ?_⟩
  intro hall
  rw [List.eq_nil_iff_forall_not_mem]
  intro p hp
  rcases (hmem p).mp hp with ⟨h1, h2⟩
  exact h2 (hall p h1)

/-- Witness for C7: with every candidate id already in the store, discovery
returns the empty list. -/
theorem claim_C7_witness :
    filterNewPosts ["a".data, "b".data]
      [⟨"a".data, "ta".data⟩, ⟨"b".data, "tb".data⟩] = [] :=
  (claim_C7 ["a".data, "b".data] [⟨"a".data, "ta".data⟩, ⟨"b".data, "tb".data⟩]).2.2
    (by decide)

/-- Claim C8: `fetch_post_data` returns `none` when the combined discussion
text is shorter than 200 characters; otherwise it returns a payload whose text
is the combined text if that has at most 20000 characters and its 20000-character
prefix otherwise; hence every returned payload's text length lies in
[200, 20000]. -/
theorem claim_C8 (pid title selftext : List Char) (comments : List FetchedComment)
    (limit : Nat) :
    (((buildDiscussion title selftext (comments.take limit)).length < 200 →
        fetch_post_data pid title selftext comments limit = none))
    ∧ (200 ≤ (buildDiscussion title selftext (comments.take limit)).length →
        (buildDiscussion title selftext (comments.take limit)).length ≤ 20000 →
        fetch_post_data pid title selftext comments limit
          = some ⟨pid, buildDiscussion title selftext (comments.take limit)⟩)
    ∧ (200 ≤ (buildDiscussion title selftext (comments.take limit)).length →
        20000 < (buildDiscussion title selftext (comments.take limit)).length →
        fetch_post_data pid title selftext comments limit
          = some ⟨pid, (buildDiscussion title selftext (comments.take limit)).take 20000⟩)
    ∧ (∀ p, fetch_post_data pid title selftext comments limit = some p →
        200 ≤ p.text.length ∧ p.text.length ≤ 20000) := by
  refine ⟨?_, ?_, ?_, ?_⟩
  · intro h
    rw [fetch_post_data, if_pos h]
  · intro h1 h2
    rw [fetch_post_data, if_neg (by omega)]
    congr 1
    simp only [Payload.mk.injEq, true_and]
    rw [if_neg (by omega)]
  · intro h1 h2
    rw [fetch_post_data, if_neg (by omega)]
    congr 1
    simp only [Payload.mk.injEq, true_and]
    rw [if_pos (by omega)]
  · intro p hp
    rw [fetch_post_data] at hp
    split at hp
    · exact absurd hp (by simp)
    · rcases Option.some_inj.mp hp with rfl
      rename_i hlen
      simp only [not_lt] at hlen
      dsimp only
      split
      · rename_i hgt
        simp only [List.length_take]
        omega
      · rename_i hle
        simp only [not_lt] at hle
        constructor <;> omega

set_option maxRecDepth 8000

/-- Witness for C8: a 160-character title yields a 203-character combined text,
which is returned untruncated. -/
theorem claim_C8_witness :
    fetch_post_data "w".data (List.replicate 160 'a') [] [] 10
      = some ⟨"w".data, buildDiscussion (List.replicate 160 'a') [] []⟩ := by
  have h := (claim_C8 "w".data (List.replicate 160 'a') [] [] 10).2.1
    (by decide) (by decide)
  simpa using h

/-- Claim C10: when the summarization call succeeds and the model output parses
to the empty JSON object, `summarize_batch` returns the empty mapping, the
orchestrator's truthiness check persists nothing from the batch, and the store
state is identical to a whole-batch failure. -/
theorem claim_C10 (apiKey : Option (List Char)) (t : List Char)
    (parseJson : List Char → Option SMap) (store : List PostRow)
    (batch : List PostData) (js : List Char)
    (hkey : keyBad apiKey = false)
    (hspan : extractJsonSpan (pyStrip t) = some js)
    (hparse : parseJson js = some []) :
    summarize_batch apiKey (.ok t) parseJson = some []
    ∧ processBatch store batch (some []) = .ok store
    ∧ processBatch store batch (some []) = processBatch store batch none := by
  refine ⟨?_, rfl, rfl⟩
  simp [summarize_batch, hkey, hspan, hparse]

/-- Witness for C10: a concrete run where the model answers the bare empty
object; the batch's store state is unchanged, as after a failure. -/
theorem claim_C10_witness :
    summarize_batch (some "k".data) (.ok "  \x7b\x7d ".data) parseEmptyObj = some []
    ∧ processBatch [⟨"a".data, exGoodSum⟩] [exPostA] (some [])
      = .ok [⟨"a".data, exGoodSum⟩] := by
  have h := claim_C10 (some "k".data) "  \x7b\x7d ".data parseEmptyObj
    [⟨"a".data, exGoodSum⟩] [exPostA] "\x7b\x7d".data (by decide) (by decide) (by rfl)
  exact ⟨h.1, h.2.1⟩

/-! ## Whitespace normal form of the normalizer's output -/

/-- Every whitespace character of `s` is a plain space. -/
def wsOk (s : List Char) : Bool := s.all (fun c => !(isSpace c) || (c == ' '))

/-- No two adjacent plain spaces. -/
def spacedOk (s : List Char) : Prop :=
  s.Chain' (fun a b => ¬(a = ' ' ∧ b = ' '))

def headNotSpace (s : List Char) : Bool :=
  match s with
  | [] => true
  | c :: _ => !(isSpace c)

theorem ne_space_of_not_isSpace {c : Char} (h : isSpace c = false) : c ≠ ' ' := by
  rintro rfl
  exact absurd h (by decide)

theorem headNotSpace_collapse_true : ∀ s : List Char,
    headNotSpace (collapseWSF true s) = true
  | [] => rfl
  | c :: cs => by
    by_cases hc : isSpace c = true
    · simp only [collapseWSF, hc, if_true]
      exact headNotSpace_collapse_true cs
    · simp only [collapseWSF, hc, if_false, Bool.false_eq_true]
      simp only [headNotSpace, Bool.not_eq_true']
      exact Bool.not_eq_true _ ▸ (Bool.eq_false_iff.mpr (fun h2 => hc h2))

theorem wsOk_cons {c : Char} {cs : List Char} :
    wsOk (c :: cs) = ((!(isSpace c) || (c == ' ')) && wsOk cs) := by
  simp [wsOk]

theorem wsOk_collapse : ∀ (b : Bool) (s : List Char), wsOk (collapseWSF b s) = true
  | _, [] => rfl
  | b, c :: cs => by
    by_cases hc : isSpace c = true
    · cases b with
      | true =>
        simp only [collapseWSF, hc, if_true]
        exact wsOk_collapse true cs
      | false =>
        simp only [collapseWSF, hc, if_true, Bool.false_eq_true, if_false]
        rw [wsOk_cons, wsOk_collapse true cs]
        decide
    · simp only [collapseWSF, hc, Bool.false_eq_true, if_false]
      rw [wsOk_cons, wsOk_collapse false cs]
      rw [Bool.not_eq_true] at hc
      simp [hc]

theorem spacedOk_collapse : ∀ (b : Bool) (s : List Char), spacedOk (collapseWSF b s)
  | _, [] => List.chain'_nil
  | b, c :: cs => by
    by_cases hc : isSpace c = true
    · cases b with
      | true =>
        simp only [collapseWSF, hc, if_true]
        exact spacedOk_collapse true cs
      | false =>
        simp only [collapseWSF, hc, if_true, Bool.false_eq_true, if_false]
        rw [spacedOk, List.chain'_cons']
        refine ⟨?_, spacedOk_collapse true cs⟩
        intro d hd
        have h2 := headNotSpace_collapse_true cs
        cases hX : collapseWSF true cs with
        | nil => rw [hX] at hd; simp at hd
        | cons d0 ds =>
          rw [hX] at hd
          simp only [List.head?_cons, Option.mem_some_iff] at hd
          subst hd
          rw [hX] at h2
          simp only [headNotSpace, Bool.not_eq_true'] at h2
          rintro ⟨-, rfl⟩
          exact absurd h2 (by decide)
    · simp only [collapseWSF, hc, Bool.false_eq_true, if_false]
      rw [spacedOk, List.chain'_cons']
      refine ⟨?_, spacedOk_collapse false cs⟩
      intro d _
      rintro ⟨rfl, -⟩
      exact absurd hc (by decide)

theorem pyStrip_eq (s : List Char) :
    pyStrip s = List.rdropWhile isSpace (s.dropWhile isSpace) := rfl

theorem pyStrip_isPart (s : List Char) : pyStrip s <:+: s := by
  rw [pyStrip_eq]
  exact (List.rdropWhile_prefix isSpace _).isInfix.trans
    (List.dropWhile_suffix isSpace).isInfix

theorem headNotSpace_pyStrip (s : List Char) : headNotSpace (pyStrip s) = true := by
  cases hy : pyStrip s with
  | nil => rfl
  | cons c cs =>
    simp only [headNotSpace, Bool.not_eq_true']
    have hpre : pyStrip s <+: s.dropWhile isSpace := by
      rw [pyStrip_eq]
      exact List.rdropWhile_prefix isSpace _
    rcases hpre with ⟨t, ht⟩
    rw [hy] at ht
    have hd2 : s.dropWhile isSpace ≠ [] := by
      rw [← ht]; simp
    have hns := List.head_dropWhile_not isSpace s hd2
    have hq : (s.dropWhile isSpace).head hd2 = c := by
      have h2 : (s.dropWhile isSpace).head? = some c := by
        rw [← ht]; simp
      rw [List.head?_eq_head hd2] at h2
      exact Option.some_inj.mp h2
    rw [hq] at hns
    exact hns

theorem pyStrip_idem (s : List Char) : pyStrip (pyStrip s) = pyStrip s := by
  rw [pyStrip_eq (pyStrip s)]
  have h1 : (pyStrip s).dropWhile isSpace = pyStrip s := by
    have hh := headNotSpace_pyStrip s
    cases hy : pyStrip s with
    | nil => rfl
    | cons c cs =>
      rw [hy] at hh
      simp only [headNotSpace, Bool.not_eq_true'] at hh
      rw [List.dropWhile_cons, if_neg (by simp [hh])]
  rw [h1, List.rdropWhile_eq_self_iff]
  intro hne
  exact List.rdropWhile_last_not isSpace (s.dropWhile isSpace) hne

theorem collapse_fix : ∀ s : List Char, wsOk s = true → spacedOk s →
    collapseWSF false s = s ∧ (headNotSpace s = true → collapseWSF true s = s)
  | [], _, _ => ⟨rfl, fun _ => rfl⟩
  | c :: cs, hws, hsp => by
    rw [wsOk_cons, Bool.and_eq_true] at hws
    have hsp2 : spacedOk cs := (List.chain'_cons'.mp hsp).2
    have ih := collapse_fix cs hws.2 hsp2
    by_cases hc : isSpace c = true
    · have hceq : c = ' ' := by
        rcases Bool.or_eq_true_iff.mp hws.1 with h | h
        · rw [hc] at h; simp at h
        · exact beq_iff_eq.mp h
      subst hceq
      have hh : headNotSpace cs = true := by
        cases cs with
        | nil => rfl
        | cons d ds =>
          have hnd := (List.chain'_cons'.mp hsp).1 d (by simp)
          have hdne : d ≠ ' ' := fun h => hnd ⟨rfl, h⟩
          simp only [headNotSpace, Bool.not_eq_true']
          cases hd : isSpace d with
          | false => rfl
          | true =>
            rw [wsOk_cons, Bool.and_eq_true] at hws
            rcases Bool.or_eq_true_iff.mp hws.2.1 with h | h
            · rw [hd] at h; simp at h
            · exact absurd (beq_iff_eq.mp h) hdne
      constructor
      · simp only [collapseWSF, hc, if_true, Bool.false_eq_true, if_false]
        rw [ih.2 hh]
      · intro hcontra
        simp only [headNotSpace, Bool.not_eq_true'] at hcontra
        exact absurd hcontra (by decide)
    · constructor
      · simp only [collapseWSF, hc, Bool.false_eq_true, if_false]
        rw [ih.1]
      · intro _
        simp only [collapseWSF, hc, Bool.false_eq_true, if_false]
        rw [ih.1]

/-- Case analysis of `clean_summary`: either the sentinel was returned, or the
result is the stripped-and-collapsed pipeline output that passed the 5-token
gate. -/
theorem clean_cases (x : List Char) :
    clean_summary x = sentinel ∨
      (clean_summary x
          = pyStrip (collapseWS (stripBullets (stripLabelStrip (applyPreamble (removeTags x)))))
        ∧ ¬ countTokens (pyStrip (collapseWS (stripBullets (stripLabelStrip
            (applyPreamble (removeTags x)))))) < 5) := by
  simp only [clean_summary]
  split
  · exact Or.inl rfl
  · split
    · rename_i hlt
      exact Or.inl rfl
    · rename_i hlt
      exact Or.inr ⟨rfl, hlt⟩

/-- A non-sentinel `clean_summary` result is in whitespace normal form: all its
whitespace characters are single plain spaces, it is strip- and collapse-fixed,
its head is not whitespace, and it has at least 5 tokens. -/
theorem clean_normalform (x : List Char) (h : clean_summary x ≠ sentinel) :
    wsOk (clean_summary x) = true ∧ spacedOk (clean_summary x)
    ∧ headNotSpace (clean_summary x) = true
    ∧ pyStrip (clean_summary x) = clean_summary x
    ∧ collapseWS (clean_summary x) = clean_summary x
    ∧ 5 ≤ countTokens (clean_summary x) := by
  rcases clean_cases x with hs | ⟨heq, hcnt⟩
  · exact absurd hs h
  · set z := collapseWS (stripBullets (stripLabelStrip (applyPreamble (removeTags x)))) with hz
    have hwz : wsOk z = true := wsOk_collapse false _
    have hsz : spacedOk z := spacedOk_collapse false _
    have hws : wsOk (clean_summary x) = true := by
      rw [heq, wsOk, List.all_eq_true]
      intro c hc
      exact List.all_eq_true.mp hwz c ((pyStrip_isPart z).sublist.subset hc)
    have hsp : spacedOk (clean_summary x) := by
      rw [heq]
      exact hsz.infix (pyStrip_isPart z)
    refine ⟨hws, hsp, ?_, ?_, ?_, ?_⟩
    · rw [heq]
      exact headNotSpace_pyStrip z
    · rw [heq]
      exact pyStrip_idem z
    · exact (collapse_fix (clean_summary x) hws hsp).1
    · rw [heq]
      omega

/-- Claim C9: `clean_summary` returns either the exact sentinel or a trimmed,
whitespace-collapsed string with at least 5 tokens; a null/empty or sentinel
input returns the sentinel unchanged (the under-5-token gate is the only other
way the sentinel arises, which the disjunction expresses). -/
theorem claim_C9 :
    clean_summary [] = sentinel ∧ clean_summary sentinel = sentinel
    ∧ ∀ x : List Char, clean_summary x = sentinel
      ∨ (wsOk (clean_summary x) = true ∧ spacedOk (clean_summary x)
          ∧ pyStrip (clean_summary x) = clean_summary x
          ∧ 5 ≤ countTokens (clean_summary x)) := by
  refine ⟨rfl, clean_sentinel, ?_⟩
  intro x
  by_cases hs : clean_summary x = sentinel
  · exact Or.inl hs
  · obtain ⟨hws, hsp, -, hstrip, -, hcnt⟩ := clean_normalform x hs
    exact Or.inr ⟨hws, hsp, hstrip, hcnt⟩

/-! ## Fixed-point conditions for a second `clean_summary` pass -/

/-- No `<` with a later `>` and no `[` with a later `]`: the tag-removal step
can find nothing to strip. -/
def noTagPair : List Char → Bool
  | [] => true
  | c :: cs =>
    (!(c == '<') || !(cs.contains '>')) && ((!(c == '[')) || !(cs.contains ']'))
      && noTagPair cs

/-- None of the five preamble phrases occurs (case-insensitively). -/
def noPreamble (s : List Char) : Bool :=
  (splitAfterCI pre1 s).isNone && (splitAfterCI pre2 s).isNone
    && (splitAfterCI pre3 s).isNone && (splitAfterCI pre4 s).isNone
    && (splitAfterCI pre5 s).isNone

def headNotBullet (s : List Char) : Bool :=
  match s with
  | [] => true
  | c :: _ => !(c == '*') && !(c == '-')

def ddOk (c : Char) (cs : List Char) : Bool :=
  match cs with
  | [] => true
  | d :: _ => !(c.isDigit && d == '.')

/-- No digit immediately followed by a period: the numbered-list alternative
of the bullet-stripping step can find nothing to strip. -/
def noDigitDot : List Char → Bool
  | [] => true
  | c :: cs => ddOk c cs && noDigitDot cs

theorem dropToClose_none {a : Char} : ∀ l : List Char,
    l.contains a = false → dropToClose a l = none
  | [], _ => rfl
  | c :: cs, h => by
    rw [dropToClose]
    by_cases hca : c = a
    · subst hca
      simp at h
    · rw [if_neg hca]
      have h2 : cs.contains a = false := by
        simp only [List.contains_cons, Bool.or_eq_false_iff] at h
        exact h.2
      exact dropToClose_none cs h2

theorem removeTagsF_fix : ∀ (n : Nat) (s : List Char),
    noTagPair s = true → removeTagsF n s = s
  | 0, _, _ => rfl
  | _ + 1, [], _ => rfl
  | n + 1, c :: cs, h => by
    simp only [noTagPair, Bool.and_eq_true, Bool.or_eq_true, Bool.not_eq_true'] at h
    obtain ⟨⟨hlt, hbr⟩, hrest⟩ := h
    rw [removeTagsF]
    by_cases hc : c = '<'
    · rw [if_pos hc]
      have hct : cs.contains '>' = false := by
        rcases hlt with h1 | h1
        · subst hc; simp at h1
        · exact h1
      rw [dropToClose_none cs hct]
      rw [removeTagsF_fix n cs hrest]
    · rw [if_neg hc]
      by_cases hb : c = '['
      · rw [if_pos hb]
        have hct : cs.contains ']' = false := by
          rcases hbr with h1 | h1
          · subst hb; simp at h1
          · exact h1
        rw [dropToClose_none cs hct]
        rw [removeTagsF_fix n cs hrest]
      · rw [if_neg hb]
        rw [removeTagsF_fix n cs hrest]

theorem removeTags_fix (s : List Char) (h : noTagPair s = true) : removeTags s = s :=
  removeTagsF_fix s.length s h

theorem applyPreamble_fix (s : List Char) (h : noPreamble s = true) :
    applyPreamble s = s := by
  simp only [noPreamble, Bool.and_eq_true, Option.isNone_iff_eq_none] at h
  obtain ⟨⟨⟨⟨h1, h2⟩, h3⟩, h4⟩, h5⟩ := h
  simp only [applyPreamble, h1, h2, h3, h4, h5]

theorem stripLabelStrip_fix (s : List Char) (hl : labelMatch0 s = none)
    (hs : pyStrip s = s) : stripLabelStrip s = s := by
  simp only [stripLabelStrip, hl]
  exact hs

theorem digitTail_none : ∀ (cs : List Char) (c : Char), c.isDigit = true →
    noDigitDot (c :: cs) = true → digitTail cs = none
  | [], _, _, _ => rfl
  | d :: ds, c, hc, h => by
    simp only [noDigitDot, Bool.and_eq_true] at h
    rw [digitTail]
    by_cases hd : d.isDigit = true
    · rw [if_pos hd]
      exact digitTail_none ds d hd
        (by simp only [noDigitDot, Bool.and_eq_true]; exact ⟨h.2.1, h.2.2⟩)
    · rw [if_neg hd]
      have hdot : d ≠ '.' := by
        intro h0
        subst h0
        have h3 : (!(c.isDigit && ('.' == '.'))) = true := h.1
        rw [hc] at h3
        simp at h3
      rw [if_neg hdot]

theorem digitMatch_none (s : List Char) (h : noDigitDot s = true) :
    digitMatch s = none := by
  cases s with
  | nil => rfl
  | cons c cs =>
    rw [digitMatch]
    by_cases hc : c.isDigit = true
    · rw [if_pos hc]
      exact digitTail_none cs c hc h
    · rw [if_neg hc]

theorem bulletMatch_none (s : List Char) (hh : headNotSpace s = true)
    (hb : headNotBullet s = true) : bulletMatch s = none := by
  cases s with
  | nil => rfl
  | cons c cs =>
    simp only [headNotSpace, Bool.not_eq_true'] at hh
    simp only [headNotBullet, Bool.and_eq_true, Bool.not_eq_true'] at hb
    have hd : (c :: cs).dropWhile isSpace = c :: cs := by
      rw [List.dropWhile_cons, if_neg (by simp [hh])]
    have h1 : ¬ c = '*' := by simpa using hb.1
    have h2 : ¬ c = '-' := by simpa using hb.2
    rw [bulletMatch, hd]
    simp [h1, h2]

theorem noDigitDot_tail {c : Char} {cs : List Char} (h : noDigitDot (c :: cs) = true) :
    noDigitDot cs = true := by
  simp only [noDigitDot, Bool.and_eq_true] at h
  exact h.2

theorem stripBulletsF_fix_false : ∀ (n : Nat) (s : List Char),
    s.contains '\n' = false → noDigitDot s = true → stripBulletsF n false s = s
  | 0, _, _, _ => rfl
  | _ + 1, [], _, _ => rfl
  | n + 1, c :: cs, hnl, hdd => by
    simp only [List.contains_cons, Bool.or_eq_false_iff] at hnl
    rw [stripBulletsF]
    simp only [Bool.false_eq_true, if_false]
    rw [digitMatch_none _ hdd]
    have hcn : decide (c = '\n') = false := by
      simp only [decide_eq_false_iff_not]
      intro h0
      subst h0
      simp at hnl
    rw [hcn, stripBulletsF_fix_false n cs hnl.2 (noDigitDot_tail hdd)]

theorem stripBullets_fix (s : List Char) (hh : headNotSpace s = true)
    (hb : headNotBullet s = true) (hnl : s.contains '\n' = false)
    (hdd : noDigitDot s = true) : stripBullets s = s := by
  rw [stripBullets]
  cases s with
  | nil => rfl
  | cons c cs =>
    simp only [List.contains_cons, Bool.or_eq_false_iff] at hnl
    have h1 := bulletMatch_none (c :: cs) hh hb
    have h2 := digitMatch_none (c :: cs) hdd
    have hcn : decide (c = '\n') = false := by
      simp only [decide_eq_false_iff_not]
      intro h0
      subst h0
      simp at hnl
    simp only [List.length_cons, stripBulletsF, h1, h2, if_true, eq_self_iff_true]
    rw [hcn, stripBulletsF_fix_false cs.length cs hnl.2 (noDigitDot_tail hdd)]

theorem not_contains_nl_of_wsOk (s : List Char) (h : wsOk s = true) :
    s.contains '\n' = false := by
  cases hc : s.contains '\n' with
  | false => rfl
  | true =>
    have hm : '\n' ∈ s := List.elem_iff.mp hc
    have h2 := List.all_eq_true.mp (by rwa [wsOk] at h) '\n' hm
    exact absurd h2 (by decide)

/-- Counterexample to claim C4 as stated: `clean` is not idempotent.  For the
input `"Post Title: Comments are nice today friend"` the first pass strips the
`Post Title:` label and returns the five-token text
`"Comments are nice today friend"`; a second pass strips the now-leading
`Comments` label, leaving four tokens, and the quality gate returns the
sentinel instead. -/
theorem claim_C4_cex :
    clean_summary (clean_summary "Post Title: Comments are nice today friend".data)
      ≠ clean_summary "Post Title: Comments are nice today friend".data := by
  decide

/-- Claim C4 as amended: `clean` is idempotent on every input whose cleaned
output is the sentinel or retriggers none of the stripping heuristics — no
`<`-before-`>` or `[`-before-`]` pair, no preamble phrase, no leading
`Comments` / `Post Title` label, no leading `*` or `-` bullet, and no digit
immediately followed by a period.  (The counterexample shows the unconditional
statement fails when the cleaned output itself still carries such an
artifact.) -/
theorem claim_C4_amended (x : List Char)
    (h : clean_summary x = sentinel ∨
      (noTagPair (clean_summary x) = true ∧ noPreamble (clean_summary x) = true
        ∧ labelMatch0 (clean_summary x) = none
        ∧ headNotBullet (clean_summary x) = true
        ∧ noDigitDot (clean_summary x) = true)) :
    clean_summary (clean_summary x) = clean_summary x := by
  by_cases hs : clean_summary x = sentinel
  · rw [hs, clean_sentinel]
  · rcases h with h | ⟨h1, h2, h3, h4, h5⟩
    · exact absurd h hs
    · obtain ⟨hws, hsp, hh, hstrip, hcoll, hcnt⟩ := clean_normalform x hs
      have hne : clean_summary x ≠ [] := by
        intro h0
        rw [h0] at hcnt
        simp [countTokens, countTokensF] at hcnt
      have e1 : removeTags (clean_summary x) = clean_summary x := removeTags_fix _ h1
      have e2 : applyPreamble (clean_summary x) = clean_summary x := applyPreamble_fix _ h2
      have e3 : stripLabelStrip (clean_summary x) = clean_summary x :=
        stripLabelStrip_fix _ h3 hstrip
      have e4 : stripBullets (clean_summary x) = clean_summary x :=
        stripBullets_fix _ hh h4 (not_contains_nl_of_wsOk _ hws) h5
      conv_lhs => rw [clean_summary]
      rw [if_neg (by simp [hne, hs])]
      simp only [e1, e2, e3, e4, hcoll, hstrip]
      rw [if_neg (by omega)]

/-- Witness for the amended C4: the spec's Scenario C input is cleaned to
`"The debate centered on X and Y."`, which carries no stripping artifact, and a
second pass leaves it unchanged. -/
theorem claim_C4_witness :
    clean_summary (clean_summary "Here is the summary: The debate centered on X and Y.".data)
      = clean_summary "Here is the summary: The debate centered on X and Y.".data :=
  claim_C4_amended "Here is the summary: The debate centered on X and Y.".data
    (Or.inr (by decide))
